import Mathlib

/-!
Verification of the exam-problem document pipeline (header codec, field
normalizers, archive importer, index query, handout composer) against its
natural-language specification.  Python string primitives are embedded as
executable Lean functions over `String` / `List String`; each pipeline pass
is translated from the corresponding Python source function.
-/

set_option maxRecDepth 8000

/-! ## Python string primitives -/

/-- Characters stripped by Python's `str.strip()` / `str.lstrip()` with no
argument (the Unicode whitespace set as Python recognizes it, including the
full-width space U+3000). -/
def pyIsSpace (c : Char) : Bool :=
  c = ' ' || c = '\t' || c = '\n' || c = '\r' || c = '\x0b' || c = '\x0c' ||
  c = '\x1c' || c = '\x1d' || c = '\x1e' || c = '\x1f' || c = '\x85' ||
  c = ' ' || c = ' ' || (' ' ≤ c && c ≤ ' ') ||
  c = ' ' || c = ' ' || c = ' ' || c = ' ' || c = '　'

/-- Python `s.lstrip()` on a character list. -/
def pyLstripL (cs : List Char) : List Char := cs.dropWhile pyIsSpace

/-- Python `s.strip()` on a character list. -/
def pyStripL (cs : List Char) : List Char :=
  ((cs.dropWhile pyIsSpace).reverse.dropWhile pyIsSpace).reverse

/-- Python `s.strip()`. -/
def pyStrip (s : String) : String := String.mk (pyStripL s.toList)

/-- Python `s.lstrip()`. -/
def pyLstrip (s : String) : String := String.mk (pyLstripL s.toList)

/-- Boolean string-prefix test: `strPre p s` is Python `s.startswith(p)`. -/
def strPreL : List Char → List Char → Bool
  | [], _ => true
  | _ :: _, [] => false
  | p :: ps, c :: cs => p == c && strPreL ps cs

/-- Python `s.startswith(p)`. -/
def strPre (p s : String) : Bool := strPreL p.toList s.toList

/-- Splitting a character list at newline characters, Python
`str.splitlines` style: a trailing newline does not produce a final empty
line.  (Only `\n` is treated as a line boundary; the documents this
pipeline writes and re-reads are `\n`-separated.) -/
def pyLinesAux (acc : List Char) : List Char → List (List Char)
  | [] => [acc.reverse]
  | c :: rest =>
    if c = '\n' then
      acc.reverse :: (if rest.isEmpty then [] else pyLinesAux [] rest)
    else pyLinesAux (c :: acc) rest

/-- Python `text.splitlines()`. -/
def pySplitlines (s : String) : List String :=
  if s = "" then [] else (pyLinesAux [] s.toList).map String.mk

/-- Python `"\n".join(lines)`. -/
def joinNL (ls : List String) : String := String.intercalate "\n" ls

/-- Index of the first element satisfying `p` (Python `list.index` /
first-match scan loops). -/
def firstIdx (p : α → Bool) : List α → Option Nat
  | [] => none
  | a :: as => if p a then some 0 else (firstIdx p as).map (· + 1)

/-- Insert an element so that it ends up at position `n` (Python
`list.insert(n, a)` for `n ≤ len`). -/
def insertAt (n : Nat) (a : α) : List α → List α
  | l => match n, l with
    | 0, l => a :: l
    | _ + 1, [] => [a]
    | m + 1, b :: bs => b :: insertAt m a bs

/-- Remove the element at position `n` (Python `list.pop(n)` /
`l[:n] + l[n+1:]`). -/
def removeAt (n : Nat) : List α → List α
  | [] => []
  | a :: as => match n with
    | 0 => as
    | m + 1 => a :: removeAt m as

/-! ## src/add_problem_number_and_clean.py -/

/-- ASCII digit or full-width digit (the character class `[0-9０-９]` of
`number_line_re`). -/
def isDigitChar (c : Char) : Bool :=
  ('0' ≤ c && c ≤ '9') || ('０' ≤ c && c ≤ '９')

/-- `normalize_digits`: full-width digits are mapped to their ASCII
equivalents, all other characters are unchanged. -/
def normalizeDigits (s : String) : String :=
  String.mk (s.toList.map (fun c =>
    if '０' ≤ c && c ≤ '９' then Char.ofNat (c.toNat - 0xFF10 + 0x30) else c))

/-- Matching a body line against `number_line_re`
(`^\s*([0-9０-９]+)(?:\s+.*)?$`): optional leading whitespace, a digit run
(the captured group), then either end of line or whitespace followed by
anything.  Returns the captured digit run. -/
def numberLineMatch (l : String) : Option String :=
  let cs := l.toList.dropWhile pyIsSpace
  let ds := cs.takeWhile isDigitChar
  let rest := cs.dropWhile isDigitChar
  if ds.isEmpty then none
  else
    match rest with
    | [] => some (String.mk ds)
    | c :: _ => if pyIsSpace c then some (String.mk ds) else none

/-- Locating the first YAML block: index of the first line equal to `---`
and of the next line equal to `---` after it (`lines.index("---")` twice in
`process_file`; `none` models the caught `ValueError`). -/
def findDelims (ls : List String) : Option (Nat × Nat) :=
  match firstIdx (· == "---") ls with
  | none => none
  | some f =>
    match firstIdx (· == "---") (ls.drop (f + 1)) with
    | none => none
    | some d => some (f, f + 1 + d)

/-- Header line carrying a `problem_number:` key
(`l.lstrip().startswith("problem_number:")`). -/
def pnPred (l : String) : Bool := strPre "problem_number:" (pyLstrip l)

/-- Header line carrying a `problem_id:` key
(`l.lstrip().startswith("problem_id:")`). -/
def pidPred (l : String) : Bool := strPre "problem_id:" (pyLstrip l)

/-- Non-blank line (`line.strip() != ""`). -/
def nonblank (l : String) : Bool := pyStrip l != ""

/-- After dropping the number line, `process_file` finds the next non-empty
line at or after position `i` and strips a leading run of full-width
spaces (U+3000) from it. -/
def fwStripAt (i : Nat) (nb : List String) : List String :=
  match firstIdx nonblank (nb.drop i) with
  | none => nb
  | some k =>
    let j := i + k
    let line := nb.getD j ""
    if strPre "　" line then
      nb.set j (String.mk (line.toList.dropWhile (· == '　')))
    else nb

/-- `process_file` of src/add_problem_number_and_clean.py on the line list
of a document.  `none` models a `[SKIP]` return (`False`, nothing
written); `some out` models a rewrite of the file with lines `out`
(`True`).  The Python insert loop appends the new `problem_number` line
directly after the first `problem_id:` line when one exists (else at the
end of the YAML block), and the overwrite branch replaces every
`problem_number:` line in place. -/
def processLines (ls : List String) : Option (List String) :=
  if ls.isEmpty then none
  else
    match findDelims ls with
    | none => none
    | some (f, s) =>
      let yaml := (ls.drop (f + 1)).take (s - f - 1)
      let body := ls.drop (s + 1)
      match firstIdx nonblank body with
      | none => none
      | some i =>
        match numberLineMatch (body.getD i "") with
        | none => none
        | some raw =>
          let numLine := "problem_number: " ++ normalizeDigits raw
          let newYaml :=
            if yaml.any pnPred then
              yaml.map (fun l => if pnPred l then numLine else l)
            else
              match firstIdx pidPred yaml with
              | some k => insertAt (k + 1) numLine yaml
              | none => yaml ++ [numLine]
          let nb := removeAt i body
          let nb2 := fwStripAt i nb
          some ("---" :: newYaml ++ "---" :: nb2)

/-- `process_file` at the text level: split the stored text into lines,
run the pass, and on success write back `"\n".join(new_lines) + "\n"`. -/
def processText (s : String) : Option String :=
  (processLines (pySplitlines s)).map (fun ls => joinNL ls ++ "\n")

/-- Claim C1 counterexample: the number-extraction pass is not idempotent.
On the document with body lines `5` and `12 abc` the first run extracts
`5`; the second run, applied to the first run's own output, finds the
leading digit run of `12 abc`, overwrites `problem_number` with `12` and
deletes that line too — it neither skips nor leaves the document
unchanged. -/
theorem number_pass_not_idempotent_cex :
    processText "---\nproblem_id: x\n---\n5\n12 abc\n"
      = some "---\nproblem_id: x\nproblem_number: 5\n---\n12 abc\n"
    ∧ processText "---\nproblem_id: x\nproblem_number: 5\n---\n12 abc\n"
      = some "---\nproblem_id: x\nproblem_number: 12\n---\n"
    ∧ processText "---\nproblem_id: x\nproblem_number: 5\n---\n12 abc\n"
      ≠ some "---\nproblem_id: x\nproblem_number: 5\n---\n12 abc\n"
    ∧ processText "---\nproblem_id: x\nproblem_number: 5\n---\n12 abc\n"
      ≠ none := by
  refine ⟨by decide, by decide, by decide, by decide⟩

/-- The document (given as its line list) still has a leading digit line in
its body, located with the pass's own splitting rule: the first YAML block
is found, the body has a first non-blank line, and that line matches the
number pattern. -/
def bodyHasLeadingNumber (out : List String) : Bool :=
  match findDelims out with
  | none => false
  | some (_, s2) =>
    match firstIdx nonblank (out.drop (s2 + 1)) with
    | none => false
    | some i => (numberLineMatch ((out.drop (s2 + 1)).getD i "")).isSome

/-- Claim C1 (amended): the number-extraction pass is idempotent exactly on
the runs whose output has no leading digit line left in its body.  If a run
rewrote a document and the rewritten document's body does not start (first
non-blank line) with the digit pattern, the second run reports the document
as a skip and writes nothing, so nothing changes further.  (Without this
proviso a second run can fire again, as the counterexample shows.) -/
theorem number_pass_idempotent_amended (ls out : List String)
    (_hrun : processLines ls = some out)
    (hno : bodyHasLeadingNumber out = false) :
    processLines out = none := by
  clear _hrun
  unfold bodyHasLeadingNumber at hno
  unfold processLines
  cases he : out.isEmpty with
  | true => simp [he]
  | false =>
    simp only [he, Bool.false_eq_true, if_false]
    cases hd : findDelims out with
    | none => simp [hd]
    | some fs =>
      obtain ⟨f2, s2⟩ := fs
      rw [hd] at hno
      simp only [] at hno
      simp only [hd]
      cases hi : firstIdx nonblank (out.drop (s2 + 1)) with
      | none => simp [hi]
      | some i =>
        rw [hi] at hno
        simp only [] at hno
        simp only [hi]
        cases hm : numberLineMatch ((out.drop (s2 + 1)).getD i "") with
        | none => simp [hm]
        | some raw => rw [hm] at hno; simp at hno

/-- Witness for the amended claim C1: on a document whose body after the
number line is non-numeric prose, the first run extracts the number and the
second run is a skip. -/
theorem number_pass_idempotent_amended_witness :
    processLines ["---", "a: 1", "---", "5", "Prove."]
      = some ["---", "a: 1", "problem_number: 5", "---", "Prove."]
    ∧ processLines ["---", "a: 1", "problem_number: 5", "---", "Prove."] = none :=
  ⟨by decide,
   number_pass_idempotent_amended ["---", "a: 1", "---", "5", "Prove."]
     ["---", "a: 1", "problem_number: 5", "---", "Prove."]
     (by decide) (by decide)⟩

/-! ## Splitting characterization (claim C3) -/

/-- A `firstIdx` scan fails exactly when no element satisfies the
predicate. -/
theorem firstIdx_eq_none_iff (p : α → Bool) (l : List α) :
    firstIdx p l = none ↔ ∀ a ∈ l, p a = false := by
  induction l with
  | nil => simp [firstIdx]
  | cons a as ih =>
    by_cases hp : p a
    · simp [firstIdx, hp]
    · simp [firstIdx, hp, ih, Option.map_eq_none']

/-- A successful `firstIdx` scan splits the list: the hit is at position
`n`, everything before it fails the predicate. -/
theorem firstIdx_some_split (p : α → Bool) (l : List α) (n : Nat)
    (h : firstIdx p l = some n) :
    ∃ a, l.drop n = a :: l.drop (n + 1) ∧ p a = true ∧
      ∀ x ∈ l.take n, p x = false := by
  induction l generalizing n with
  | nil => simp [firstIdx] at h
  | cons b bs ih =>
    by_cases hp : p b
    · simp [firstIdx, hp] at h
      subst h
      exact ⟨b, by simp, hp, by simp⟩
    · simp [firstIdx, hp, Option.map_eq_some'] at h
      obtain ⟨m, hm, rfl⟩ := h
      obtain ⟨a, h1, h2, h3⟩ := ih m hm
      refine ⟨a, by simpa using h1, h2, ?_⟩
      intro x hx
      simp only [List.take_succ_cons, List.mem_cons] at hx
      rcases hx with rfl | hx
      · simpa using hp
      · exact h3 x hx

/-- Claim C3 counterexample: in the number-extraction pass, header
splitting succeeds on a document whose first line is not the delimiter
(the pass takes the first `---` found anywhere); the document is processed
rather than skipped as headerless. -/
theorem split_first_line_cex :
    ["junk", "---", "a: 1", "---", "5 x"].headD "" ≠ "---"
    ∧ findDelims ["junk", "---", "a: 1", "---", "5 x"] = some (1, 3)
    ∧ processLines ["junk", "---", "a: 1", "---", "5 x"]
        = some ["---", "a: 1", "problem_number: 5", "---"] := by
  refine ⟨by decide, by decide, by decide⟩

/-- `_load_problem_index` of src/app.py, header-splitting part: the first
line must strip to `---`, then the next line stripping to `---` is found;
between them the header lines, after it the body lines. -/
def loaderSplit (ls : List String) : Option (List String × List String) :=
  match ls with
  | [] => none
  | l0 :: rest =>
    if pyStrip l0 != "---" then none
    else
      match firstIdx (fun l => pyStrip l == "---") rest with
      | none => none
      | some d => some (rest.take d, rest.drop (d + 1))

/-- Claim C3 (amended): header splitting never raises (both passes return a
skip value on failure), but the two cited passes succeed under different
conditions.  The number-extraction pass succeeds exactly when the text
contains two `---` lines anywhere in order (the first need not be the first
line of the document), and skips otherwise; the index loader succeeds
exactly when the first line strips to `---` and some later line strips to
`---` again. -/
theorem split_characterization_amended (ls : List String) :
    (findDelims ls = none ↔ ls.countP (· == "---") < 2)
    ∧ (findDelims ls = none → processLines ls = none)
    ∧ ((loaderSplit ls).isSome = true ↔
        ∃ l0 rest, ls = l0 :: rest ∧ pyStrip l0 = "---" ∧
          rest.any (fun l => pyStrip l == "---") = true) := by
  refine ⟨?_, ?_, ?_⟩
  · unfold findDelims
    cases h1 : firstIdx (· == "---") ls with
    | none =>
      have h0 : ls.countP (· == "---") = 0 := by
        rw [List.countP_eq_zero]
        intro a ha
        simpa using (firstIdx_eq_none_iff _ ls).mp h1 a ha
      simp [h0]
    | some f =>
      obtain ⟨a, hdrop, hpa, htake⟩ := firstIdx_some_split _ ls f h1
      have hcount : ls.countP (· == "---")
          = 1 + (ls.drop (f + 1)).countP (· == "---") := by
        conv_lhs => rw [← List.take_append_drop f ls]
        rw [List.countP_append, hdrop, List.countP_cons]
        have h0 : (ls.take f).countP (· == "---") = 0 := by
          rw [List.countP_eq_zero]
          intro x hx
          simpa using htake x hx
        simp only [hpa, if_true]
        omega
      cases h2 : firstIdx (· == "---") (ls.drop (f + 1)) with
      | none =>
        have h0 : (ls.drop (f + 1)).countP (· == "---") = 0 := by
          rw [List.countP_eq_zero]
          intro x hx
          simpa using (firstIdx_eq_none_iff _ _).mp h2 x hx
        simp only []
        rw [h2]
        simp [hcount, h0]
      | some d =>
        obtain ⟨b, hdrop2, hpb, -⟩ := firstIdx_some_split _ _ d h2
        have hb : b ∈ ls.drop (f + 1) := by
          have : b ∈ (ls.drop (f + 1)).drop d := by
            rw [hdrop2]; exact List.mem_cons_self _ _
          exact List.mem_of_mem_drop this
        have hpos : 0 < (ls.drop (f + 1)).countP (· == "---") :=
          List.countP_pos_iff.mpr ⟨b, hb, hpb⟩
        simp only []
        rw [h2]
        constructor
        · intro h; simp at h
        · intro h; exfalso; omega
  · intro h
    unfold processLines
    cases he : ls.isEmpty with
    | true => simp [he]
    | false => simp [he, h]
  · unfold loaderSplit
    cases ls with
    | nil => simp
    | cons l0 rest =>
      cases h2 : firstIdx (fun l => pyStrip l == "---") rest with
      | none =>
        have hany : rest.any (fun l => pyStrip l == "---") = false := by
          rw [List.any_eq_false]
          intro x hx
          simpa using (firstIdx_eq_none_iff _ _).mp h2 x hx
        by_cases h0 : pyStrip l0 = "---"
        · simp only [h0, h2]
          simp
          intro _
          simpa using List.any_eq_false.mp hany
        · simp [h0]
      | some d =>
        obtain ⟨b, hdrop, hpb, -⟩ := firstIdx_some_split _ _ d h2
        have hb : b ∈ rest := by
          have : b ∈ rest.drop d := by
            rw [hdrop]; exact List.mem_cons_self _ _
          exact List.mem_of_mem_drop this
        by_cases h0 : pyStrip l0 = "---"
        · simp only [h0, h2]
          simp
          exact ⟨l0, rest, ⟨rfl, rfl⟩, h0, b, hb, by simpa using hpb⟩
        · simp [h0]

/-- Witness for the amended claim C3: a document with a single `---` line
has no second delimiter, so both passes report it as headerless (a skip),
and no exception escapes (the pass is a total function returning the skip
value). -/
theorem split_characterization_amended_witness :
    findDelims ["---", "title: x"] = none
    ∧ processLines ["---", "title: x"] = none
    ∧ (loaderSplit ["---", "title: x"]).isSome = false :=
  ⟨by decide,
   (split_characterization_amended ["---", "title: x"]).2.1 (by decide),
   by decide⟩

/-! ## src/classifier.py -/

/-- `_strip_yaml_header`: if the first line strips to `---` and a later
line strips to `---`, return everything after that later line rejoined;
otherwise return the input unchanged. -/
def stripYamlHeader (qmd : String) : String :=
  match pySplitlines qmd with
  | [] => qmd
  | l0 :: rest =>
    if pyStrip l0 != "---" then qmd
    else
      match firstIdx (fun l => pyStrip l == "---") rest with
      | none => qmd
      | some d => joinNL (rest.drop (d + 1))

/-- Python `s.split(c)` on character lists: split at every occurrence of
`c`, keeping empty pieces. -/
def splitChar (c : Char) : List Char → List (List Char)
  | [] => [[]]
  | a :: as =>
    let r := splitChar c as
    if a = c then [] :: r
    else
      match r with
      | [] => [[a]]
      | h :: t => (a :: h) :: t

/-- Python `s.split(c, 1)` when it produces two pieces: the part before the
first occurrence of `c` and the part after it; `none` when `c` does not
occur (Python would return a one-element list). -/
def splitOnceAfter (c : Char) (cs : List Char) : Option (List Char) :=
  match cs.dropWhile (· ≠ c) with
  | [] => none
  | _ :: rest => some rest

/-- Python `s.rsplit(c, 1)[0]`: everything before the last occurrence of
`c`, or the whole string when `c` does not occur. -/
def rsplitBefore (c : Char) (cs : List Char) : List Char :=
  match cs.reverse.dropWhile (· ≠ c) with
  | [] => cs
  | _ :: rest => rest.reverse

/-- Python `s.strip("\"'")`: strip double- and single-quote characters from
both ends. -/
def pyStripQuotes (cs : List Char) : List Char :=
  let isQ : Char → Bool := fun c => c = '"' || c = '\''
  ((cs.dropWhile isQ).reverse.dropWhile isQ).reverse

/-- The response parser inside `classify_problem_fields` (lines 76-87):
strip and drop blank lines, find the first line starting with `fields:`,
cut out the bracketed part, split it on commas, strip whitespace and
quotes from each item, and keep the non-empty items.  A `fields:` line
without `[` aborts with the empty result. -/
def parseFieldsLine (content : String) : List String :=
  let ls := ((pySplitlines content).map pyStrip).filter (fun l => l != "")
  match firstIdx (fun l => strPre "fields:" l) ls with
  | none => []
  | some i =>
    match splitOnceAfter '[' (ls.getD i "").toList with
    | none => []
    | some after =>
      let inside := rsplitBefore ']' after
      let raws := (splitChar ',' inside).map
        (fun it => String.mk (pyStripQuotes (pyStripL it)))
      raws.filter (fun it => it != "")

/-- Modelled from the spec: the closed classification-tag vocabulary
`FIELDS` lives in taxonomy.py, which is not part of the sources given;
the spec fixes it as a closed list of tag strings (a few dozen entries)
containing at least the tags used in its examples, such as 数列 and
積分法.  Its exact contents are immaterial to every claim proved here. -/
def FIELDS : List String :=
  ["数と式", "二次関数", "図形と計量", "場合の数と確率", "整数の性質",
   "図形の性質", "式と証明", "複素数と方程式", "図形と方程式", "三角関数",
   "指数関数・対数関数", "微分法", "積分法", "数列", "ベクトル", "統計的な推測",
   "極限", "微分法の応用", "積分法の応用", "複素数平面", "二次曲線"]

/-- Outcome of the external chat-completion call: either the response
content string, or a raised exception (network failure and the like). -/
inductive ApiFailure where
  | network : ApiFailure
deriving DecidableEq

instance decEqExcept {ε α : Type} [DecidableEq ε] [DecidableEq α] :
    DecidableEq (Except ε α) := fun a b =>
  match a, b with
  | Except.error e, Except.error f => decidable_of_iff (e = f) (by simp)
  | Except.ok x, Except.ok y => decidable_of_iff (x = y) (by simp)
  | Except.error _, Except.ok _ => isFalse (fun hh => Except.noConfusion hh)
  | Except.ok _, Except.error _ => isFalse (fun hh => Except.noConfusion hh)

/-- `classify_problem_fields`, with the external call modelled by its
outcome `call`.  The second component records whether the external call
was reached.  The body is the input with the YAML header stripped, then
stripped of whitespace; an empty body returns the empty list before the
client is even constructed.  The call itself is NOT wrapped in any
try/except in the source, so a raised failure propagates to the caller
(`Except.error`); a successful response is parsed and unknown tags are
dropped against the `FIELDS` vocabulary. -/
def classifyRun (call : Except ApiFailure String) (qmd : String) :
    Except ApiFailure (List String) × Bool :=
  let body := pyStrip (stripYamlHeader qmd)
  if body = "" then (Except.ok [], false)
  else
    match call with
    | Except.error e => (Except.error e, true)
    | Except.ok content =>
      (Except.ok ((parseFieldsLine content).filter (fun t => FIELDS.contains t)),
       true)

/-- Claim C4 is a code bug: `classify_problem_fields` has no exception
handling around the chat-completion call, so a network failure propagates
to the caller as a raised exception instead of the empty list promised by
the spec and by the function's own docstring (失敗した場合は空リストを返す).
Evaluated at the failing input: a non-empty problem document and a call
that raises. -/
theorem classify_network_error_propagates :
    classifyRun (Except.error ApiFailure.network) "---\nproblem_id: x\n---\nProve x>0."
      = (Except.error ApiFailure.network, true)
    ∧ (Except.error ApiFailure.network : Except ApiFailure (List String))
      ≠ Except.ok [] := by
  refine ⟨by decide, by decide⟩

/-- Claim C10: when the input with its YAML header removed is empty or
whitespace-only, `classify_problem_fields` returns the empty list at once,
for every possible outcome of the external call, and the external call is
not reached at all. -/
theorem classify_empty_body_no_call (call : Except ApiFailure String)
    (qmd : String) (h : pyStrip (stripYamlHeader qmd) = "") :
    classifyRun call qmd = (Except.ok [], false) := by
  unfold classifyRun
  simp [h]

/-- Witness for claim C10: a document whose body is a single line of
whitespace (including a full-width space) is classified as empty; the
call outcome provided would have produced tags had it been consulted. -/
theorem classify_empty_body_no_call_witness :
    pyStrip (stripYamlHeader "---\nproblem_id: x\n---\n 　 ") = ""
    ∧ classifyRun (Except.ok "fields: [\"数列\"]") "---\nproblem_id: x\n---\n 　 "
      = (Except.ok [], false) :=
  ⟨by decide,
   classify_empty_body_no_call (Except.ok "fields: [\"数列\"]")
     "---\nproblem_id: x\n---\n 　 " (by decide)⟩

/-! ## src/solver.py -/

/-- `_strip_solution_heading`: skip leading blank lines; if the first
non-blank line (after `lstrip`) starts with `## 解答`, drop everything up
to and including that line plus the immediately following blank lines and
rejoin (with a final `lstrip("\n")` as in the source); otherwise return
the text unchanged. -/
def stripSolutionHeading (text : String) : String :=
  if text = "" then text
  else
    let lines := pySplitlines text
    match firstIdx nonblank lines with
    | none => text
    | some i =>
      if strPre "## 解答" (pyLstrip (lines.getD i "")) then
        let rest := lines.drop (i + 1)
        let j := (firstIdx nonblank rest).getD rest.length
        String.mk ((joinNL (rest.drop j)).toList.dropWhile (· == '\n'))
      else text

/-- Claim C5 counterexample: the heading strip is not idempotent.  A
solution body whose first two lines are both `## 解答` headings loses one
heading per application, so the second application changes the text
again. -/
theorem strip_heading_not_idempotent_cex :
    stripSolutionHeading "## 解答\n## 解答\n模範解答" = "## 解答\n模範解答"
    ∧ stripSolutionHeading (stripSolutionHeading "## 解答\n## 解答\n模範解答")
      = "模範解答"
    ∧ stripSolutionHeading (stripSolutionHeading "## 解答\n## 解答\n模範解答")
      ≠ stripSolutionHeading "## 解答\n## 解答\n模範解答" := by
  refine ⟨by decide, by decide, by decide⟩

/-- The text still begins (first non-blank line) with a `## 解答` heading,
as `_strip_solution_heading` detects it. -/
def hasLeadingHeading (t : String) : Bool :=
  match firstIdx nonblank (pySplitlines t) with
  | none => false
  | some i => strPre "## 解答" (pyLstrip ((pySplitlines t).getD i ""))

/-- A text whose first non-blank line is not a `## 解答` heading passes
through `_strip_solution_heading` unchanged. -/
theorem stripSolutionHeading_no_heading (t : String)
    (h : hasLeadingHeading t = false) : stripSolutionHeading t = t := by
  unfold hasLeadingHeading at h
  unfold stripSolutionHeading
  by_cases he : t = ""
  · simp [he]
  · simp only [he, if_false]
    cases hi : firstIdx nonblank (pySplitlines t) with
    | none => simp
    | some i =>
      rw [hi] at h
      simp only [] at h
      rw [List.getD_eq_getElem?_getD] at h
      simp [h]

/-- Claim C5 (amended): the heading strip removes one leading `## 解答`
heading block per application, so it is idempotent exactly on the texts
whose once-stripped form no longer begins with a `## 解答` heading (in
particular, any text with at most one leading heading); on a doubled
heading a second application strips again, as the counterexample shows. -/
theorem strip_heading_idempotent_amended (s : String)
    (h : hasLeadingHeading (stripSolutionHeading s) = false) :
    stripSolutionHeading (stripSolutionHeading s) = stripSolutionHeading s :=
  stripSolutionHeading_no_heading (stripSolutionHeading s) h

/-- Witness for the amended claim C5: a solution body with a single
leading heading is stripped once and is then a fixed point. -/
theorem strip_heading_idempotent_amended_witness :
    stripSolutionHeading "## 解答\n\n模範解答" = "模範解答"
    ∧ stripSolutionHeading (stripSolutionHeading "## 解答\n\n模範解答")
      = stripSolutionHeading "## 解答\n\n模範解答" :=
  ⟨by decide, strip_heading_idempotent_amended "## 解答\n\n模範解答" (by decide)⟩

/-! ## src/archive_import.py -/

/-- One source file of the archive tree, identified by institution code,
year directory and filename stem (class `TeXProblem`); `tex` is the file
content. -/
structure TexItem where
  university : String
  year : String
  stem : String
  tex : String
deriving DecidableEq

/-- `TeXProblem.problem_id`: deterministic identifier
institution-year-stem. -/
def texProblemId (it : TexItem) : String :=
  it.university ++ "-" ++ it.year ++ "-" ++ it.stem

/-- One iteration of the loop in `import_archive` (dry_run = False): the
problems store is an association list problem_id to document text; if the
target already exists (`out_path.exists()`) the item is skipped (report
entry `true`), otherwise the built document is written (report entry
`false`).  The document construction (read with encoding fallback, extract
body, rewrite image references, build YAML) is the `build` parameter: the
claim is independent of the produced text. -/
def importStep (build : TexItem → String)
    (acc : List (String × String) × List (String × Bool)) (it : TexItem) :
    List (String × String) × List (String × Bool) :=
  let pid := texProblemId it
  if (acc.1.lookup pid).isSome then (acc.1, acc.2 ++ [(pid, true)])
  else (acc.1 ++ [(pid, build it)], acc.2 ++ [(pid, false)])

/-- `import_archive` over a source-item list: fold the per-item step over
the problems store, also returning the skip report. -/
def importArchive (build : TexItem → String)
    (store : List (String × String)) (items : List TexItem) :
    List (String × String) × List (String × Bool) :=
  items.foldl (importStep build) (store, [])

/-- An association-list key that resolves keeps resolving after appending
entries on the right. -/
theorem lookup_append_some {α β : Type} [BEq α] (k : α)
    (l1 l2 : List (α × β)) (h : (l1.lookup k).isSome = true) :
    ((l1 ++ l2).lookup k).isSome = true := by
  induction l1 with
  | nil => simp [List.lookup] at h
  | cons p ps ih =>
    obtain ⟨a, b⟩ := p
    simp only [List.cons_append, List.lookup] at h ⊢
    cases hk : (k == a) with
    | true => rfl
    | false => rw [hk] at h; exact ih h

/-- Appending an entry for `k` makes `k` resolve. -/
theorem lookup_append_self {α β : Type} [BEq α] [LawfulBEq α] (k : α) (v : β)
    (l1 : List (α × β)) : ((l1 ++ [(k, v)]).lookup k).isSome = true := by
  induction l1 with
  | nil => simp [List.lookup]
  | cons p ps ih =>
    obtain ⟨a, b⟩ := p
    simp only [List.cons_append, List.lookup]
    cases hk : (k == a) with
    | true => rfl
    | false => exact ih

/-- One import step never removes a store entry. -/
theorem importStep_fst_mono (build : TexItem → String)
    (acc : List (String × String) × List (String × Bool)) (it : TexItem)
    (k : String) (h : (acc.1.lookup k).isSome = true) :
    (((importStep build acc it).1).lookup k).isSome = true := by
  simp only [importStep]
  by_cases hl : (acc.1.lookup (texProblemId it)).isSome = true
  · rw [if_pos hl]
    exact h
  · rw [if_neg hl]
    exact lookup_append_some k acc.1 _ h

/-- A resolving key still resolves after a whole import run. -/
theorem importFold_mono (build : TexItem → String) (items : List TexItem) :
    ∀ acc : List (String × String) × List (String × Bool), ∀ k : String,
      (acc.1.lookup k).isSome = true →
      (((items.foldl (importStep build) acc).1).lookup k).isSome = true := by
  induction items with
  | nil => intro acc k h; simpa using h
  | cons it rest ih =>
    intro acc k h
    simp only [List.foldl_cons]
    exact ih _ k (importStep_fst_mono build acc it k h)

/-- After an import run, the target of every processed item exists in the
store (it was either there already or has just been written). -/
theorem importFold_covers (build : TexItem → String) (items : List TexItem) :
    ∀ acc : List (String × String) × List (String × Bool),
      ∀ it ∈ items,
      (((items.foldl (importStep build) acc).1).lookup
        (texProblemId it)).isSome = true := by
  induction items with
  | nil => intro acc it h; simp at h
  | cons hd rest ih =>
    intro acc it h
    simp only [List.foldl_cons]
    rcases List.mem_cons.mp h with rfl | h2
    · have hstep : (((importStep build acc it).1).lookup
          (texProblemId it)).isSome = true := by
        simp only [importStep]
        by_cases hl : (acc.1.lookup (texProblemId it)).isSome = true
        · rw [if_pos hl]
          exact hl
        · rw [if_neg hl]
          exact lookup_append_self (texProblemId it) (build it) acc.1
      exact importFold_mono build rest _ _ hstep
    · exact ih _ it h2

/-- A run over items whose targets all exist already changes nothing and
reports every item as a skip. -/
theorem importFold_all_present (build : TexItem → String)
    (items : List TexItem) :
    ∀ store : List (String × String), ∀ log : List (String × Bool),
      (∀ it ∈ items, (store.lookup (texProblemId it)).isSome = true) →
      items.foldl (importStep build) (store, log)
        = (store, log ++ items.map (fun it => (texProblemId it, true))) := by
  induction items with
  | nil => intro store log _; simp
  | cons hd rest ih =>
    intro store log h
    simp only [List.foldl_cons, List.map_cons]
    have hhd := h hd (List.mem_cons_self _ _)
    have hstep : importStep build (store, log) hd
        = (store, log ++ [(texProblemId hd, true)]) := by
      simp only [importStep]
      rw [if_pos hhd]
    rw [hstep, ih store _ (fun it hit => h it (List.mem_cons_of_mem _ hit))]
    simp

/-- Claim C2: the archive importer is idempotent and never overwrites.
Whatever the starting store, after one run every source item's
deterministic target exists, so a second run over the same source tree
finds every target on its existence check (performed before any write),
writes nothing, and reports every item as a skip. -/
theorem import_archive_idempotent (build : TexItem → String)
    (store : List (String × String)) (items : List TexItem) :
    importArchive build (importArchive build store items).1 items
      = ((importArchive build store items).1,
         items.map (fun it => (texProblemId it, true))) := by
  unfold importArchive
  have hcov : ∀ it ∈ items,
      ((((items.foldl (importStep build) (store, [])).1).lookup
        (texProblemId it)).isSome = true) :=
    fun it hit => importFold_covers build items (store, []) it hit
  simpa using importFold_all_present build items
    (items.foldl (importStep build) (store, [])).1 [] hcov

/-! ## src/assign_fields.py -/

/-- Python `s.endswith("\n")`. -/
def endsNL (s : String) : Bool := s.toList.getLast? == some '\n'

/-- The YAML header region of a document as the fields-merge pass sees it:
defined when the first line strips to `---` and a later line strips to
`---`; the lines strictly between are the header. -/
def yamlHeaderOf (qmd : String) : Option (List String) :=
  match pySplitlines qmd with
  | [] => none
  | l0 :: rest =>
    if pyStrip l0 != "---" then none
    else (firstIdx (fun l => pyStrip l == "---") rest).map (fun d => rest.take d)

/-- `add_fields_to_yaml` of src/assign_fields.py: append a `fields` block
to the YAML header.  An empty tag list, a missing first delimiter, an
existing `fields:` line (scanned over every line of the document), or a
missing closing delimiter leave the text unchanged; otherwise the block is
inserted immediately before the first `format:` header line when present,
else at the end of the header, and the text is rejoined preserving the
presence of a trailing newline. -/
def add_fields_to_yaml (qmd : String) (fields : List String) : String :=
  if fields.isEmpty then qmd
  else
    match pySplitlines qmd with
    | [] => qmd
    | l0 :: rest =>
      if pyStrip l0 != "---" then qmd
      else if (l0 :: rest).any (fun l => strPre "fields:" (pyStrip l)) then qmd
      else
        match firstIdx (fun l => pyStrip l == "---") rest with
        | none => qmd
        | some d =>
          let header := rest.take d
          let pos :=
            (firstIdx (fun l => strPre "format:" (pyLstrip l)) header).getD
              header.length
          let newHeader := header.take pos
            ++ "fields:" :: fields.map (fun f => "  - " ++ f)
            ++ header.drop pos
          joinNL ("---" :: newHeader ++ rest.drop d)
            ++ (if endsNL qmd then "\n" else "")

/-- Claim C6: the fields-merge normalizer (i) never inserts for an empty
candidate list, (ii) leaves a document whose header already has a `fields`
key completely unchanged, (iii) when it does change the document, the
header had no `fields` key, the tag list was non-empty, and the new
`fields` block sits immediately before the first `format:` header line
(at the end of the header when there is none), with all other lines and
the body preserved, and (iv) in the pipeline the candidate list coming
from the classifier contains only tags of the closed `FIELDS` vocabulary
(unknown tags are dropped before insertion). -/
theorem fields_merge_spec (qmd : String) (tags : List String)
    (call : Except ApiFailure String) :
    (add_fields_to_yaml qmd [] = qmd)
    ∧ (∀ h, yamlHeaderOf qmd = some h →
        (∃ l ∈ h, strPre "fields:" (pyStrip l) = true) →
        add_fields_to_yaml qmd tags = qmd)
    ∧ (add_fields_to_yaml qmd tags ≠ qmd →
        tags ≠ [] ∧
        ∃ l0 rest d,
          pySplitlines qmd = l0 :: rest
          ∧ yamlHeaderOf qmd = some (rest.take d)
          ∧ firstIdx (fun l => pyStrip l == "---") rest = some d
          ∧ (∀ l ∈ rest.take d, strPre "fields:" (pyStrip l) = false)
          ∧ add_fields_to_yaml qmd tags
              = joinNL ("---" ::
                  ((rest.take d).take
                      ((firstIdx (fun l => strPre "format:" (pyLstrip l))
                        (rest.take d)).getD (rest.take d).length)
                    ++ "fields:" :: tags.map (fun t => "  - " ++ t)
                    ++ (rest.take d).drop
                      ((firstIdx (fun l => strPre "format:" (pyLstrip l))
                        (rest.take d)).getD (rest.take d).length))
                  ++ rest.drop d)
                ++ (if endsNL qmd then "\n" else ""))
    ∧ (∀ r b, classifyRun call qmd = (Except.ok r, b) →
        ∀ t ∈ r, FIELDS.contains t = true) := by
  refine ⟨?_, ?_, ?_, ?_⟩
  · simp [add_fields_to_yaml]
  · intro h hh hex
    obtain ⟨l, hl, hlf⟩ := hex
    unfold yamlHeaderOf at hh
    unfold add_fields_to_yaml
    cases hsp : pySplitlines qmd with
    | nil => simp
    | cons l0 rest =>
      rw [hsp] at hh
      simp only [] at hh
      by_cases h0 : (pyStrip l0 != "---") = true
      · simp [h0]
      · rw [if_neg h0] at hh
        simp only [Option.map_eq_some'] at hh
        obtain ⟨d, hd, hhd⟩ := hh
        have hmem : l ∈ l0 :: rest := by
          subst hhd
          exact List.mem_cons_of_mem _ (List.mem_of_mem_take hl)
        have hany : (l0 :: rest).any (fun x => strPre "fields:" (pyStrip x)) = true :=
          List.any_eq_true.mpr ⟨l, hmem, hlf⟩
        by_cases hf : tags.isEmpty
        · simp [hf]
        · simp [hf, hany, h0]
  · intro hne
    unfold add_fields_to_yaml at hne ⊢
    by_cases hf : tags.isEmpty
    · rw [if_pos hf] at hne
      exact absurd rfl hne
    · rw [if_neg hf] at hne
      rw [if_neg hf]
      constructor
      · intro habs
        rw [habs] at hf
        exact hf rfl
      · cases hsp : pySplitlines qmd with
        | nil =>
          rw [hsp] at hne
          exact absurd rfl hne
        | cons l0 rest =>
          rw [hsp] at hne
          simp only [] at hne ⊢
          by_cases h0 : (pyStrip l0 != "---") = true
          · rw [if_pos h0] at hne
            exact absurd rfl hne
          · rw [if_neg h0] at hne ⊢
            by_cases hany : (l0 :: rest).any (fun l => strPre "fields:" (pyStrip l)) = true
            · rw [if_pos hany] at hne
              exact absurd rfl hne
            · rw [if_neg hany] at hne ⊢
              cases hfi : firstIdx (fun l => pyStrip l == "---") rest with
              | none =>
                rw [hfi] at hne
                exact absurd rfl hne
              | some d =>
                rw [hfi] at hne
                refine ⟨l0, rest, d, rfl, ?_, hfi, ?_, rfl⟩
                · unfold yamlHeaderOf
                  rw [hsp]
                  simp only []
                  rw [if_neg h0, hfi]
                  rfl
                · intro l hl
                  have hmem : l ∈ l0 :: rest :=
                    List.mem_cons_of_mem _ (List.mem_of_mem_take hl)
                  cases hx : strPre "fields:" (pyStrip l) with
                  | false => rfl
                  | true =>
                    exact absurd (List.any_eq_true.mpr ⟨l, hmem, hx⟩) hany
  · intro r b hcr t ht
    unfold classifyRun at hcr
    by_cases hbody : pyStrip (stripYamlHeader qmd) = ""
    · rw [if_pos hbody] at hcr
      have h1 : ([] : List String) = r := by
        have := congrArg Prod.fst hcr
        simpa using this
      rw [← h1] at ht
      simp at ht
    · rw [if_neg hbody] at hcr
      cases call with
      | error e => simp at hcr
      | ok content =>
        have h1 := congrArg Prod.fst hcr
        simp only [] at h1
        have h2 : (parseFieldsLine content).filter
            (fun t => FIELDS.contains t) = r := by
          simpa using h1
        rw [← h2] at ht
        exact (List.mem_filter.mp ht).2

/-- Witness for claim C6, on the spec's own example: a header that already
holds `fields: ["積分法"]` is left completely unchanged by a merge of the
candidate tags 数列, 積分法, unknownTag. -/
theorem fields_merge_spec_witness :
    add_fields_to_yaml
        "---\ntitle: t\nfields: [\"積分法\"]\nformat:\n  html\n---\nbody"
        ["数列", "積分法", "unknownTag"]
      = "---\ntitle: t\nfields: [\"積分法\"]\nformat:\n  html\n---\nbody" :=
  (fields_merge_spec
      "---\ntitle: t\nfields: [\"積分法\"]\nformat:\n  html\n---\nbody"
      ["数列", "積分法", "unknownTag"] (Except.ok "")).2.1
    ["title: t", "fields: [\"積分法\"]", "format:", "  html"]
    (by decide)
    ⟨"fields: [\"積分法\"]", by decide, by decide⟩

/-! ## List position lemmas for the reordering and insertion passes -/

theorem removeAt_eq_take_drop (n : Nat) (l : List α) :
    removeAt n l = l.take n ++ l.drop (n + 1) := by
  induction l generalizing n with
  | nil => simp [removeAt]
  | cons a as ih =>
    cases n with
    | zero => simp [removeAt]
    | succ m => simp [removeAt, ih]

theorem insertAt_eq_take_drop (n : Nat) (a : α) (l : List α)
    (h : n ≤ l.length) : insertAt n a l = l.take n ++ a :: l.drop n := by
  induction l generalizing n with
  | nil =>
    have hn0 : n = 0 := by simpa using h
    subst hn0
    simp [insertAt]
  | cons b bs ih =>
    cases n with
    | zero => simp [insertAt]
    | succ m =>
      simp only [insertAt, List.take_succ_cons, List.drop_succ_cons,
        List.cons_append, List.cons.injEq, true_and]
      exact ih m (by simpa using h)

theorem getD_insertAt_self (n : Nat) (a : α) (l : List α) (d : α)
    (h : n ≤ l.length) : (insertAt n a l).getD n d = a := by
  induction l generalizing n with
  | nil =>
    have hn0 : n = 0 := by simpa using h
    subst hn0
    simp [insertAt]
  | cons b bs ih =>
    cases n with
    | zero => simp [insertAt]
    | succ m =>
      simp only [insertAt, List.getD_cons_succ]
      exact ih m (by simpa using h)

theorem getD_insertAt_lt (n i : Nat) (a : α) (l : List α) (d : α)
    (h : i < n) (hn : n ≤ l.length) :
    (insertAt n a l).getD i d = l.getD i d := by
  induction l generalizing n i with
  | nil =>
    have hn0 : n = 0 := by simpa using hn
    omega
  | cons b bs ih =>
    cases n with
    | zero => omega
    | succ m =>
      cases i with
      | zero => simp [insertAt]
      | succ j =>
        simp only [insertAt, List.getD_cons_succ]
        exact ih m j (by omega) (by simpa using hn)

theorem removeAt_insertAt (n : Nat) (a : α) (l : List α)
    (h : n ≤ l.length) : removeAt n (insertAt n a l) = l := by
  induction l generalizing n with
  | nil =>
    have hn0 : n = 0 := by simpa using h
    subst hn0
    simp [insertAt, removeAt]
  | cons b bs ih =>
    cases n with
    | zero => simp [insertAt, removeAt]
    | succ m =>
      simp only [insertAt, removeAt, List.cons.injEq, true_and]
      exact ih m (by simpa using h)

theorem firstIdx_some_getD (p : α → Bool) (l : List α) (n : Nat) (d : α)
    (h : firstIdx p l = some n) :
    n < l.length ∧ p (l.getD n d) = true := by
  obtain ⟨a, hdrop, hpa, -⟩ := firstIdx_some_split p l n h
  have hn : n < l.length := by
    by_contra hge
    push_neg at hge
    rw [List.drop_eq_nil_of_le hge] at hdrop
    simp at hdrop
  have hget : l.getD n d = a := by
    have h1 : l[n]? = some a := by
      rw [← List.head?_drop, hdrop]
      rfl
    simp [List.getD_eq_getElem?_getD, h1]
  rw [hget]
  exact ⟨hn, hpa⟩

theorem firstIdx_isSome_of_mem (p : α → Bool) (l : List α) (a : α)
    (hmem : a ∈ l) (hp : p a = true) : (firstIdx p l).isSome = true := by
  cases hf : firstIdx p l with
  | some n => rfl
  | none =>
    have := (firstIdx_eq_none_iff p l).mp hf a hmem
    rw [hp] at this
    cases this

theorem getD_mem_of_lt (l : List α) (n : Nat) (d : α) (h : n < l.length) :
    l.getD n d ∈ l := by
  rw [List.getD_eq_getElem?_getD, List.getElem?_eq_getElem h]
  simp [List.getElem_mem]

theorem firstIdx_removeAt_isSome (p : α → Bool) :
    ∀ (l : List α) (n e : Nat) (d : α), n ≠ e → e < l.length →
      p (l.getD e d) = true → (firstIdx p (removeAt n l)).isSome = true := by
  intro l
  induction l with
  | nil => intro n e d _ he _; simp at he
  | cons a as ih =>
    intro n e d hne he hp
    cases n with
    | zero =>
      cases e with
      | zero => exact absurd rfl hne
      | succ e2 =>
        simp only [removeAt]
        refine firstIdx_isSome_of_mem p as (as.getD e2 d) ?_ ?_
        · exact getD_mem_of_lt as e2 d (by simpa using he)
        · simpa using hp
    | succ m =>
      cases e with
      | zero =>
        have hpa : p a = true := by simpa using hp
        simp [removeAt, firstIdx, hpa]
      | succ e2 =>
        by_cases hpa : p a = true
        · simp [removeAt, firstIdx, hpa]
        · have hrec := ih m e2 d (fun hx => hne (by omega))
            (by simpa using he) (by simpa using hp)
          simp only [removeAt, firstIdx, hpa, Bool.false_eq_true, if_false]
          simpa using hrec

/-! ## src/reorder_problem_number_after_exam_year.py -/

/-- Header line carrying an `exam_year:` key
(`l.lstrip().startswith("exam_year:")`). -/
def eyPred (l : String) : Bool := strPre "exam_year:" (pyLstrip l)

/-- `process_file` of src/reorder_problem_number_after_exam_year.py on the
line list of a document.  `none` models a `False` return (nothing
written).  The Python code pops the first `problem_number:` line from the
YAML block, re-locates the first `exam_year:` line, and reinserts the
popped line directly after it (appending at the end in the unreachable
case that no `exam_year:` line remains). -/
def processReorder (ls : List String) : Option (List String) :=
  if ls.isEmpty then none
  else
    match findDelims ls with
    | none => none
    | some (f, s) =>
      let yaml := (ls.drop (f + 1)).take (s - f - 1)
      match firstIdx pnPred yaml, firstIdx eyPred yaml with
      | none, _ => none
      | some _, none => none
      | some p, some e =>
        if p = e + 1 then none
        else
          let pline := yaml.getD p ""
          let y2 := removeAt p yaml
          let newYaml :=
            match firstIdx eyPred y2 with
            | none => y2 ++ [pline]
            | some e2 => insertAt (e2 + 1) pline y2
          some (ls.take (f + 1) ++ newYaml ++ ls.drop s)

/-- Claim C7: in the key-reordering pass, when both `problem_number` and
`exam_year` header keys are present and `problem_number` is not directly
after `exam_year`, the `problem_number` line is removed from its position
and reinserted directly after the (first) `exam_year` line: in the result
it sits at the successor position of an `exam_year` line, removing it
again restores exactly the remaining header (so the relative order of all
other header lines is untouched), and the lines before the header and
from the closing delimiter on (the body) are reproduced verbatim.  When
either key is absent, or adjacency already holds, the pass is a no-op
(`False`, nothing written). -/
theorem reorder_moves_problem_number (ls : List String) (f s : Nat)
    (yaml : List String) (p e : Nat)
    (hfd : findDelims ls = some (f, s))
    (hyaml : yaml = (ls.drop (f + 1)).take (s - f - 1)) :
    (firstIdx pnPred yaml = none ∨ firstIdx eyPred yaml = none →
        processReorder ls = none)
    ∧ (firstIdx pnPred yaml = some p → firstIdx eyPred yaml = some e →
        p = e + 1 → processReorder ls = none)
    ∧ (firstIdx pnPred yaml = some p → firstIdx eyPred yaml = some e →
        p ≠ e + 1 →
        ∃ e2, firstIdx eyPred (removeAt p yaml) = some e2
          ∧ processReorder ls = some (ls.take (f + 1)
              ++ insertAt (e2 + 1) (yaml.getD p "") (removeAt p yaml)
              ++ ls.drop s)
          ∧ (insertAt (e2 + 1) (yaml.getD p "") (removeAt p yaml)).getD
              (e2 + 1) "" = yaml.getD p ""
          ∧ eyPred ((insertAt (e2 + 1) (yaml.getD p "")
              (removeAt p yaml)).getD e2 "") = true
          ∧ removeAt (e2 + 1) (insertAt (e2 + 1) (yaml.getD p "")
              (removeAt p yaml)) = removeAt p yaml) := by
  have hnil : ls.isEmpty = false := by
    cases ls with
    | nil => simp [findDelims, firstIdx] at hfd
    | cons a as => rfl
  refine ⟨?_, ?_, ?_⟩
  · intro hcase
    unfold processReorder
    rw [hnil, hfd]
    simp only [Bool.false_eq_true, if_false]
    rw [← hyaml]
    rcases hcase with h1 | h1
    · rw [h1]
    · rw [h1]
      cases firstIdx pnPred yaml <;> rfl
  · intro hp he hadj
    unfold processReorder
    rw [hnil, hfd]
    simp only [Bool.false_eq_true, if_false]
    rw [← hyaml, hp, he]
    simp [hadj]
  · intro hp he hadj
    have hplen := firstIdx_some_getD pnPred yaml p "" hp
    have helen := firstIdx_some_getD eyPred yaml e "" he
    have hpe : p ≠ e := by
      intro heq
      have h1 := hplen.2
      have h2 := helen.2
      rw [← heq] at h2
      unfold pnPred at h1
      unfold eyPred at h2
      unfold strPre at h1 h2
      have e1 : "problem_number:".toList
          = 'p' :: "roblem_number:".toList := by decide
      have e2 : "exam_year:".toList = 'e' :: "xam_year:".toList := by decide
      rw [e1] at h1
      rw [e2] at h2
      cases hs : (pyLstrip (yaml.getD p "")).toList with
      | nil => rw [hs] at h1; simp [strPreL] at h1
      | cons c cs =>
        rw [hs] at h1 h2
        simp only [strPreL, Bool.and_eq_true, beq_iff_eq] at h1 h2
        rw [← h1.1] at h2
        cases h2.1
    have hsurv : (firstIdx eyPred (removeAt p yaml)).isSome = true :=
      firstIdx_removeAt_isSome eyPred yaml p e "" hpe helen.1 helen.2
    obtain ⟨e2, he2⟩ : ∃ e2, firstIdx eyPred (removeAt p yaml) = some e2 :=
      Option.isSome_iff_exists.mp hsurv
    have he2len := firstIdx_some_getD eyPred (removeAt p yaml) e2 "" he2
    refine ⟨e2, he2, ?_, ?_, ?_, ?_⟩
    · unfold processReorder
      rw [hnil, hfd]
      simp only [Bool.false_eq_true, if_false]
      rw [← hyaml, hp, he]
      simp only []
      rw [if_neg hadj, he2]
    · exact getD_insertAt_self (e2 + 1) (yaml.getD p "") (removeAt p yaml) ""
        (by omega)
    · rw [getD_insertAt_lt (e2 + 1) e2 (yaml.getD p "") (removeAt p yaml) ""
        (by omega) (by omega)]
      exact he2len.2
    · exact removeAt_insertAt (e2 + 1) (yaml.getD p "") (removeAt p yaml)
        (by omega)

/-- Witness for claim C7: a header with `problem_number` first and
`exam_year` last gets the `problem_number` line moved directly after the
`exam_year` line; body and delimiters are untouched. -/
theorem reorder_moves_problem_number_witness :
    processReorder
        ["---", "problem_number: 3", "title: t", "exam_year: 2020", "---", "body"]
      = some ["---", "title: t", "exam_year: 2020", "problem_number: 3",
          "---", "body"] := by
  obtain ⟨e2, he2, hout, -, -, -⟩ :=
    (reorder_moves_problem_number
      ["---", "problem_number: 3", "title: t", "exam_year: 2020", "---", "body"]
      0 4 ["problem_number: 3", "title: t", "exam_year: 2020"] 0 2
      (by decide) (by decide)).2.2 (by decide) (by decide) (by decide)
  have h1 : firstIdx eyPred
      (removeAt 0 ["problem_number: 3", "title: t", "exam_year: 2020"])
      = some 1 := by decide
  have he2v : e2 = 1 := (Option.some.inj (h1.symm.trans he2)).symm
  subst he2v
  rw [hout]
  decide

/-! ## Claim C9: where the number-extraction pass writes the key -/

/-- The header line written by `process_file`
(f-string `problem_number: {number_ascii}`). -/
def numLineOf (raw : String) : String :=
  "problem_number: " ++ normalizeDigits raw

theorem getD_map_of_lt (f : α → β) (l : List α) (n : Nat) (d : α) (d2 : β)
    (h : n < l.length) : (l.map f).getD n d2 = f (l.getD n d) := by
  rw [List.getD_eq_getElem?_getD, List.getElem?_map, List.getD_eq_getElem?_getD,
    List.getElem?_eq_getElem h]
  simp

/-- Claim C9: when the number-extraction pass fires (a YAML block is found
and the first non-blank body line carries a number), the `problem_number`
line is placed as follows.  If the header has no `problem_number` key, the
new line is inserted directly after the first `problem_id:` line when one
exists, and appended at the end of the header otherwise.  If the header
already has a (unique) `problem_number` line, it is overwritten in place:
the new header has the same length, carries the new line at the same
position, and every other position is unchanged. -/
theorem number_insert_position (ls : List String) (f s : Nat)
    (yaml body : List String) (i k : Nat) (raw : String)
    (hfd : findDelims ls = some (f, s))
    (hyaml : yaml = (ls.drop (f + 1)).take (s - f - 1))
    (hbody : body = ls.drop (s + 1))
    (hi : firstIdx nonblank body = some i)
    (hm : numberLineMatch (body.getD i "") = some raw) :
    (firstIdx pnPred yaml = none → firstIdx pidPred yaml = some k →
        processLines ls = some ("---" :: insertAt (k + 1) (numLineOf raw) yaml
          ++ "---" :: fwStripAt i (removeAt i body)))
    ∧ (firstIdx pnPred yaml = none → firstIdx pidPred yaml = none →
        processLines ls = some ("---" :: (yaml ++ [numLineOf raw])
          ++ "---" :: fwStripAt i (removeAt i body)))
    ∧ (firstIdx pnPred yaml = some k →
        (∀ j, j < yaml.length → j ≠ k → pnPred (yaml.getD j "") = false) →
        ∃ ny, processLines ls
            = some ("---" :: ny ++ "---" :: fwStripAt i (removeAt i body))
          ∧ ny.length = yaml.length
          ∧ ny.getD k "" = numLineOf raw
          ∧ (∀ j, j ≠ k → ny.getD j "" = yaml.getD j "")) := by
  have hnil : ls.isEmpty = false := by
    cases ls with
    | nil => simp [findDelims, firstIdx] at hfd
    | cons a as => rfl
  refine ⟨?_, ?_, ?_⟩
  all_goals intro h1 h2
  · have hany : yaml.any pnPred = false := by
      rw [List.any_eq_false]
      intro x hx
      have := (firstIdx_eq_none_iff _ _).mp h1 x hx
      simp [this]
    unfold processLines
    rw [hnil, hfd]
    simp only [Bool.false_eq_true, if_false]
    rw [← hyaml, ← hbody, hi]
    simp only []
    rw [hm]
    simp only [hany, Bool.false_eq_true, if_false]
    rw [h2]
    rfl
  · have hany : yaml.any pnPred = false := by
      rw [List.any_eq_false]
      intro x hx
      have := (firstIdx_eq_none_iff _ _).mp h1 x hx
      simp [this]
    unfold processLines
    rw [hnil, hfd]
    simp only [Bool.false_eq_true, if_false]
    rw [← hyaml, ← hbody, hi]
    simp only []
    rw [hm]
    simp only [hany, Bool.false_eq_true, if_false]
    rw [h2]
    rfl
  · have hk := firstIdx_some_getD pnPred yaml k "" h1
    have hany : yaml.any pnPred = true :=
      List.any_eq_true.mpr ⟨yaml.getD k "", getD_mem_of_lt _ _ _ hk.1, hk.2⟩
    refine ⟨yaml.map (fun l => if pnPred l then numLineOf raw else l),
      ?_, by simp, ?_, ?_⟩
    · unfold processLines
      rw [hnil, hfd]
      simp only [Bool.false_eq_true, if_false]
      rw [← hyaml, ← hbody, hi]
      simp only []
      rw [hm]
      simp only [hany, if_true]
      rfl
    · rw [getD_map_of_lt _ _ _ "" "" hk.1, hk.2]
      simp
    · intro j hj
      rcases Nat.lt_or_ge j yaml.length with hlt | hge
      · rw [getD_map_of_lt _ _ _ "" "" hlt, h2 j hlt hj]
        simp
      · rw [List.getD_eq_default, List.getD_eq_default]
        · exact hge
        · simpa using hge

/-- Witness for claim C9: a header with `problem_id` but no
`problem_number` gets the new line (digits normalized from full-width)
inserted directly after the `problem_id:` line; the number line is removed
from the body. -/
theorem number_insert_position_witness :
    processLines ["---", "problem_id: x", "title: t", "---", "５ 問題"]
      = some ["---", "problem_id: x", "problem_number: 5", "title: t", "---"] := by
  have h := (number_insert_position
      ["---", "problem_id: x", "title: t", "---", "５ 問題"] 0 3
      ["problem_id: x", "title: t"] ["５ 問題"] 0 0 "５"
      (by decide) (by decide) (by decide) (by decide) (by decide)).1
    (by decide) (by decide)
  rw [h]
  decide

/-! ## src/app.py search -/

/-- One record of the problem index built by `_load_problem_index`
(the projection the search route filters and sorts on). -/
structure IndexItem where
  problem_id : String
  university : String
  exam_year : Option Int
  fields : List String

/-- Python `int(c)` digit value for ASCII and full-width digits. -/
def digitVal (c : Char) : Nat :=
  if '0' ≤ c && c ≤ '9' then c.toNat - 0x30
  else if '０' ≤ c && c ≤ '９' then c.toNat - 0xFF10
  else 0

/-- `_parse_year`: Python `int(s)` on a year string, `None` on failure
(surrounding whitespace and an optional sign are accepted, then decimal
digits). -/
def pyParseInt (s : String) : Option Int :=
  match pyStripL s.toList with
  | [] => none
  | c :: rest =>
    let neg := c = '-'
    let ds := if c = '-' || c = '+' then rest else c :: rest
    if ds.isEmpty || !(ds.all isDigitChar) then none
    else
      let n : Nat := ds.foldl (fun acc d => acc * 10 + digitVal d) 0
      some (if neg then -(n : Int) else (n : Int))

/-- The sort key of the search route:
`(x["university"], x["exam_year"] or 0, x["problem_id"])`. -/
def searchKey (it : IndexItem) : String × Int × String :=
  (it.university,
   (match it.exam_year with
    | none => 0
    | some y => if y = 0 then 0 else y),
   it.problem_id)

/-- Lexicographic order on the sort-key triple (Python tuple comparison). -/
def tripLe (a b : String × Int × String) : Prop :=
  a.1 < b.1 ∨ (a.1 = b.1 ∧
    (a.2.1 < b.2.1 ∨ (a.2.1 = b.2.1 ∧ a.2.2 ≤ b.2.2)))

instance tripLeDec : ∀ a b, Decidable (tripLe a b) := fun a b => by
  unfold tripLe
  infer_instance

theorem tripLe_total (a b : String × Int × String) :
    tripLe a b ∨ tripLe b a := by
  unfold tripLe
  rcases lt_trichotomy a.1 b.1 with h | h | h
  · exact Or.inl (Or.inl h)
  · rcases lt_trichotomy a.2.1 b.2.1 with h2 | h2 | h2
    · exact Or.inl (Or.inr ⟨h, Or.inl h2⟩)
    · rcases le_total a.2.2 b.2.2 with h3 | h3
      · exact Or.inl (Or.inr ⟨h, Or.inr ⟨h2, h3⟩⟩)
      · exact Or.inr (Or.inr ⟨h.symm, Or.inr ⟨h2.symm, h3⟩⟩)
    · exact Or.inr (Or.inr ⟨h.symm, Or.inl h2⟩)
  · exact Or.inr (Or.inl h)

theorem tripLe_trans (a b c : String × Int × String)
    (h1 : tripLe a b) (h2 : tripLe b c) : tripLe a c := by
  unfold tripLe at h1 h2 ⊢
  rcases h1 with h1 | ⟨e1, h1⟩
  · rcases h2 with h2 | ⟨e2, h2⟩
    · exact Or.inl (h1.trans h2)
    · exact Or.inl (e2 ▸ h1)
  · rcases h2 with h2 | ⟨e2, h2⟩
    · exact Or.inl (by rw [e1]; exact h2)
    · refine Or.inr ⟨e1.trans e2, ?_⟩
      rcases h1 with h1 | ⟨f1, h1⟩
      · rcases h2 with h2 | ⟨f2, h2⟩
        · exact Or.inl (h1.trans h2)
        · exact Or.inl (f2 ▸ h1)
      · rcases h2 with h2 | ⟨f2, h2⟩
        · exact Or.inl (by rw [f1]; exact h2)
        · exact Or.inr ⟨f1.trans f2, h1.trans h2⟩

/-- Descending comparison used by `results.sort(key=..., reverse=True)`:
`x` may come before `y` when the key of `y` is at most the key of `x`. -/
def keyGe (x y : IndexItem) : Prop := tripLe (searchKey y) (searchKey x)

instance keyGeDec : DecidableRel keyGe := fun x y => by
  unfold keyGe
  infer_instance

instance keyGeTotal : IsTotal IndexItem keyGe :=
  ⟨fun x y => tripLe_total (searchKey y) (searchKey x)⟩

instance keyGeTrans : IsTrans IndexItem keyGe :=
  ⟨fun _ _ _ h1 h2 => tripLe_trans _ _ _ h2 h1⟩

/-- The `search` route of src/app.py (lines 387-429), given the index
records: parse the year bounds (the lower bound defaults to
`max(2015, year_min)` when the caller supplies none), filter by exact
institution match, inclusive year range (records with no year fail any
set bound), and tag membership, then either sort descending by
`(university, exam_year or 0, problem_id)` (Python's stable sort is
modelled by insertion sort) or, in random mode, return at most 10 items
of the shuffled result (the shuffle is an opaque parameter). -/
def searchRoute (shuffle : List IndexItem → List IndexItem)
    (items : List IndexItem)
    (selU yearFromRaw yearToRaw selField mode : String) : List IndexItem :=
  let years := ((items.filter (fun it => it.exam_year.isSome)).map
    (fun it => it.exam_year.getD 0))
  let yearMin : Option Int := years.min?
  let yearFrom : Option Int :=
    if yearFromRaw != "" then pyParseInt yearFromRaw
    else
      match yearMin with
      | some m => some (max 2015 m)
      | none => none
  let yearTo : Option Int :=
    if yearToRaw != "" then pyParseInt yearToRaw else none
  let results := items.filter (fun it =>
    (selU == "" || it.university == selU)
    && (match yearFrom with
        | none => true
        | some a =>
          match it.exam_year with
          | none => false
          | some b => decide (a ≤ b))
    && (match yearTo with
        | none => true
        | some a =>
          match it.exam_year with
          | none => false
          | some b => decide (b ≤ a))
    && (selField == "" || it.fields.contains selField))
  if mode != "random" then List.insertionSort keyGe results
  else (shuffle results).take 10

/-- The record set the claim describes: university is exactly 東京大学 and
the year is present and within the inclusive range [2015, 2020]. -/
def tokyoPredB (it : IndexItem) : Bool :=
  it.university == "東京大学"
  && (match it.exam_year with
      | none => false
      | some y => decide (2015 ≤ y) && decide (y ≤ 2020))

/-- Claim C8: the index query with institution filter 東京大学 and year
range [2015, 2020] returns exactly the records whose university equals
東京大学 and whose year is non-null and within the inclusive range
(null-year records are excluded) — a permutation of that filtered subset —
sorted descending by the triple (university, year, problem_id). -/
theorem search_tokyo_filter_sorted (shuffle : List IndexItem → List IndexItem)
    (items : List IndexItem) :
    (searchRoute shuffle items "東京大学" "2015" "2020" "" "search").Perm
      (items.filter tokyoPredB)
    ∧ List.Pairwise keyGe
      (searchRoute shuffle items "東京大学" "2015" "2020" "" "search") := by
  have hroute : searchRoute shuffle items "東京大学" "2015" "2020" "" "search"
      = List.insertionSort keyGe (items.filter tokyoPredB) := by
    unfold searchRoute
    simp only [show (("2015" : String) != "") = true from by decide,
      show (("2020" : String) != "") = true from by decide,
      show (("search" : String) != "random") = true from by decide,
      show pyParseInt "2015" = some 2015 from by decide,
      show pyParseInt "2020" = some 2020 from by decide, if_true]
    congr 1
    apply List.filter_congr
    intro it _
    cases hy : it.exam_year with
    | none => simp [tokyoPredB, hy]
    | some y => simp [tokyoPredB, hy, decide_eq_true_eq, Bool.and_assoc]
  rw [hroute]
  exact ⟨List.perm_insertionSort keyGe _, List.sorted_insertionSort keyGe _⟩
